import Mathlib

/-!
Shallow embedding of the rasteric/filestore Go package (filestore.go,
filehelpers.go, dates.go) for verification of its specification.

Modelling conventions:
* The model fixes a POSIX platform: `os.PathSeparator` is `'/'`, so
  `filepath.ToSlash` and `filepath.FromSlash` are the identity and are
  therefore omitted.
* SQLite TEXT values are Lean `String`s; SQLite TEXT comparison is
  byte-wise, modelled by lexicographic comparison on the char list
  (all strings involved in ordering are ASCII date strings).
* The SQL `ORDER BY` clauses in the source order only by `date`; SQLite
  leaves the relative order of rows with equal keys unspecified.  The
  model resolves this by a stable sort over table-scan (insertion)
  order, the deterministic refinement closest to the engine's actual
  behaviour for this schema (no index on `date`).
* External collaborators (Blake2b digesting via `blake2b`, Snappy
  compression via `snappy`, the metaphone3 phonetic encoder, and the
  FTS5 match engine) are parameters of the model, bundled in `Ext`.
* File I/O is modelled by an association list from path to file entry;
  a file entry carries its byte content and an optional fault
  `failAfter = some k`, meaning a read of that file during a copy fails
  after `k` bytes were already written to the destination (fault
  injection for the partial-write cleanup path of `addVersion`).
-/

namespace FilestoreModel

/-! ## Characters, byte-wise string order -/

/-- Numeric value of an ASCII digit character. -/
def dv (c : Char) : Nat := c.toNat - 48

/-- ASCII digit test, as Go's byte-range check in `time.Parse`. -/
def isDigitCh (c : Char) : Bool := 48 ≤ c.toNat && c.toNat ≤ 57

/-- Lexicographic (byte-wise) comparison of char lists, modelling
SQLite's default TEXT (memcmp) comparison on ASCII strings. -/
def strLeAux : List Char → List Char → Bool
  | [], _ => true
  | _ :: _, [] => false
  | a :: as, b :: bs => if a = b then strLeAux as bs else decide (a < b)

/-- Byte-wise string comparison used for SQL `ORDER BY date` and
`date > ?` comparisons. -/
def strLe (a b : String) : Bool := strLeAux a.toList b.toList

theorem strLeAux_total (a b : List Char) : strLeAux a b || strLeAux b a := by
  induction a generalizing b with
  | nil => simp [strLeAux]
  | cons x xs ih =>
    cases b with
    | nil => simp [strLeAux]
    | cons y ys =>
      by_cases h : x = y
      · subst h; simpa [strLeAux] using ih ys
      · rcases lt_trichotomy x y with hlt | heq | hgt
        · simp [strLeAux, h, hlt]
        · exact absurd heq h
        · simp [strLeAux, h, Ne.symm h, hgt]

theorem strLeAux_trans {a b c : List Char} (h1 : strLeAux a b)
    (h2 : strLeAux b c) : strLeAux a c := by
  induction a generalizing b c with
  | nil => simp [strLeAux]
  | cons x xs ih =>
    cases b with
    | nil => simp [strLeAux] at h1
    | cons y ys =>
      cases c with
      | nil => simp [strLeAux] at h2
      | cons z zs =>
        by_cases hxy : x = y
        · subst hxy
          by_cases hyz : x = z
          · subst hyz
            simp only [strLeAux, if_pos rfl] at h1 h2 ⊢
            exact ih h1 h2
          · simpa [strLeAux, hyz] using h2
        · by_cases hyz : y = z
          · subst hyz; simpa [strLeAux, hxy] using h1
          · simp only [strLeAux, if_neg hxy, decide_eq_true_eq] at h1
            simp only [strLeAux, if_neg hyz, decide_eq_true_eq] at h2
            have hxz : x < z := lt_trans h1 h2
            simp [strLeAux, ne_of_lt hxz, hxz]

theorem strLe_total (a b : String) : strLe a b || strLe b a :=
  strLeAux_total _ _

theorem strLe_trans {a b c : String} (h1 : strLe a b) (h2 : strLe b c) :
    strLe a c := strLeAux_trans h1 h2

/-! ## SQLite LIKE matching

`buildTerm` in filestore.go emits SQL `LIKE` patterns; SQLite's default
`LIKE` is case-insensitive for the ASCII range and treats `%` as a
multi-char and `_` as a single-char wildcard (no ESCAPE clause is used
by the source). -/

/-- ASCII-range case folding, as SQLite's default LIKE collation. -/
def foldCI (c : Char) : Char :=
  if 65 ≤ c.toNat && c.toNat ≤ 90 then Char.ofNat (c.toNat + 32) else c

/-- Character comparison under ASCII case folding. -/
def charEqCI (a b : Char) : Bool := foldCI a = foldCI b

/-- SQLite LIKE matching of a pattern against a string (both as char
lists), with `%` and `_` wildcards and ASCII case-insensitivity: `%`
matches any (possibly empty) sequence — i.e. the rest of the pattern
must match some suffix of the string — and `_` any single char. -/
def likeMatchAux : List Char → List Char → Bool
  | [], s => s.isEmpty
  | '%' :: ps, s => s.tails.any (fun s' => likeMatchAux ps s')
  | '_' :: ps, s =>
    match s with
    | [] => false
    | _ :: s' => likeMatchAux ps s'
  | a :: ps, s =>
    match s with
    | [] => false
    | c :: s' => charEqCI a c && likeMatchAux ps s'

/-- String-level LIKE match: `likeMatch pattern value`. -/
def likeMatch (p s : String) : Bool := likeMatchAux p.toList s.toList

/-! ## Date encoding (dates.go, `ParseDBDate`/`ToDBDate`)

The authoritative helpers use the Go layout `2006-01-02 15:04:05`:
exactly four year digits, two digits for every other component, with
Go's `time.Parse` range checks (month 1..12, day valid for the month
and year, hour 0..23, minute and second 0..59) and no trailing text. -/

/-- A parsed timestamp, the model of Go's `time.Time` restricted to
what the DB layout carries (no timezone, no sub-second part). -/
structure DateTime where
  year : Nat
  month : Nat
  day : Nat
  hour : Nat
  minute : Nat
  second : Nat
  deriving Repr, DecidableEq

/-- Gregorian leap-year rule, as Go's `time` package. -/
def isLeapYear (y : Nat) : Bool := (y % 4 = 0 && y % 100 ≠ 0) || y % 400 = 0

/-- Days in a month, as Go's `time` package day-of-month range check. -/
def daysInMonth (y m : Nat) : Nat :=
  if m = 2 then (if isLeapYear y then 29 else 28)
  else if m = 4 || m = 6 || m = 9 || m = 11 then 30
  else 31

/-- ParseDBDate models `time.Parse("2006-01-02 15:04:05", date)`:
`none` is a parse error. -/
def ParseDBDate (date : String) : Option DateTime :=
  match date.toList with
  | [y1, y2, y3, y4, '-', m1, m2, '-', d1, d2, ' ',
     h1, h2, ':', n1, n2, ':', s1, s2] =>
    if ([y1, y2, y3, y4, m1, m2, d1, d2, h1, h2, n1, n2, s1, s2].all
        isDigitCh) then
      let y := ((dv y1 * 10 + dv y2) * 10 + dv y3) * 10 + dv y4
      let mo := dv m1 * 10 + dv m2
      let d := dv d1 * 10 + dv d2
      let h := dv h1 * 10 + dv h2
      let mi := dv n1 * 10 + dv n2
      let se := dv s1 * 10 + dv s2
      if 1 ≤ mo && mo ≤ 12 && 1 ≤ d && d ≤ daysInMonth y mo &&
         h ≤ 23 && mi ≤ 59 && se ≤ 59 then
        some ⟨y, mo, d, h, mi, se⟩
      else none
    else none
  | _ => none

/-- Two-digit zero-padded decimal rendering (Go layout components
`01`, `02`, `15`, `04`, `05`). -/
def pad2l (n : Nat) : List Char :=
  [Char.ofNat (48 + n / 10), Char.ofNat (48 + n % 10)]

/-- Four-digit zero-padded decimal rendering (Go layout component
`2006`). -/
def pad4l (n : Nat) : List Char :=
  [Char.ofNat (48 + n / 1000), Char.ofNat (48 + n / 100 % 10),
   Char.ofNat (48 + n / 10 % 10), Char.ofNat (48 + n % 10)]

/-- ToDBDate models `date.Format("2006-01-02 15:04:05")`. -/
def ToDBDate (t : DateTime) : String :=
  String.mk (pad4l t.year ++ '-' :: pad2l t.month ++ '-' :: pad2l t.day ++
    ' ' :: pad2l t.hour ++ ':' :: pad2l t.minute ++ ':' :: pad2l t.second)

theorem ofNat_dv {c : Char} (h : isDigitCh c = true) :
    Char.ofNat (48 + dv c) = c := by
  have hb : 48 ≤ c.toNat ∧ c.toNat ≤ 57 := by
    simpa [isDigitCh, Bool.and_eq_true, decide_eq_true_eq] using h
  have he : 48 + dv c = c.toNat := by unfold dv; omega
  rw [he, Char.ofNat_toNat]

theorem pad2l_dv {a b : Char} (ha : isDigitCh a = true)
    (hb : isDigitCh b = true) : pad2l (dv a * 10 + dv b) = [a, b] := by
  have hb' : 48 ≤ b.toNat ∧ b.toNat ≤ 57 := by
    simpa [isDigitCh, Bool.and_eq_true, decide_eq_true_eq] using hb
  have e1 : (dv a * 10 + dv b) / 10 = dv a := by unfold dv; omega
  have e2 : (dv a * 10 + dv b) % 10 = dv b := by unfold dv; omega
  rw [pad2l, e1, e2, ofNat_dv ha, ofNat_dv hb]

theorem pad4l_dv {a b c d : Char} (ha : isDigitCh a = true)
    (hb : isDigitCh b = true) (hc : isDigitCh c = true)
    (hd : isDigitCh d = true) :
    pad4l (((dv a * 10 + dv b) * 10 + dv c) * 10 + dv d) = [a, b, c, d] := by
  have hb' : 48 ≤ b.toNat ∧ b.toNat ≤ 57 := by
    simpa [isDigitCh, Bool.and_eq_true, decide_eq_true_eq] using hb
  have hc' : 48 ≤ c.toNat ∧ c.toNat ≤ 57 := by
    simpa [isDigitCh, Bool.and_eq_true, decide_eq_true_eq] using hc
  have hd' : 48 ≤ d.toNat ∧ d.toNat ≤ 57 := by
    simpa [isDigitCh, Bool.and_eq_true, decide_eq_true_eq] using hd
  have e1 : (((dv a * 10 + dv b) * 10 + dv c) * 10 + dv d) / 1000 = dv a := by
    unfold dv; omega
  have e2 : (((dv a * 10 + dv b) * 10 + dv c) * 10 + dv d) / 100 % 10 = dv b := by
    unfold dv; omega
  have e3 : (((dv a * 10 + dv b) * 10 + dv c) * 10 + dv d) / 10 % 10 = dv c := by
    unfold dv; omega
  have e4 : (((dv a * 10 + dv b) * 10 + dv c) * 10 + dv d) % 10 = dv d := by
    unfold dv; omega
  rw [pad4l, e1, e2, e3, e4, ofNat_dv ha, ofNat_dv hb, ofNat_dv hc, ofNat_dv hd]

/-- Parsing accepts exactly the canonical padded encoding, so a parsed
string is reproduced verbatim by the formatter. -/
theorem ToDBDate_ParseDBDate {s : String} {t : DateTime}
    (h : ParseDBDate s = some t) : ToDBDate t = s := by
  unfold ParseDBDate at h
  split at h
  next y1 y2 y3 y4 m1 m2 d1 d2 h1 h2 n1 n2 s1 s2 heq =>
    split at h
    next hdig =>
      dsimp only at h
      split at h
      next hrange =>
        simp only [List.all_cons, List.all_nil, Bool.and_eq_true,
          and_true] at hdig
        obtain ⟨hy1, hy2, hy3, hy4, hm1, hm2, hd1, hd2, hh1, hh2,
          hn1, hn2, hs1, hs2⟩ := hdig
        cases h
        cases s with
        | mk data =>
          have hdata : data = [y1, y2, y3, y4, '-', m1, m2, '-', d1, d2, ' ',
              h1, h2, ':', n1, n2, ':', s1, s2] := by
            simpa [String.toList] using heq
          subst hdata
          simp only [ToDBDate, pad4l_dv hy1 hy2 hy3 hy4, pad2l_dv hm1 hm2,
            pad2l_dv hd1 hd2, pad2l_dv hh1 hh2, pad2l_dv hn1 hn2,
            pad2l_dv hs1 hs2]
          rfl
      next => exact absurd h (by simp)
    next => exact absurd h (by simp)
  next => exact absurd h (by simp)

/-! ## Stable sorting (model of SQL ORDER BY)

`lt a b` means "a sorts strictly before b".  The insertion sort is
stable: rows with equal keys keep their table-scan order, the
deterministic refinement of SQLite's unspecified tie order. -/

/-- Insert `x` after every element that sorts strictly before it. -/
def insSorted (lt : α → α → Bool) (x : α) : List α → List α
  | [] => [x]
  | y :: ys => if lt y x then y :: insSorted lt x ys else x :: y :: ys

/-- Stable insertion sort by a strict comparison. -/
def sortByStable (lt : α → α → Bool) : List α → List α
  | [] => []
  | x :: xs => insSorted lt x (sortByStable lt xs)

theorem mem_insSorted (lt : α → α → Bool) (x a : α) (l : List α) :
    a ∈ insSorted lt x l ↔ a = x ∨ a ∈ l := by
  induction l with
  | nil => simp [insSorted]
  | cons y ys ih =>
    by_cases h : lt y x
    · simp [insSorted, h, ih]; tauto
    · simp [insSorted, h]

theorem mem_sortByStable (lt : α → α → Bool) (a : α) (l : List α) :
    a ∈ sortByStable lt l ↔ a ∈ l := by
  induction l with
  | nil => simp [sortByStable]
  | cons x xs ih => simp [sortByStable, mem_insSorted, ih]

theorem length_insSorted (lt : α → α → Bool) (x : α) (l : List α) :
    (insSorted lt x l).length = l.length + 1 := by
  induction l with
  | nil => simp [insSorted]
  | cons y ys ih =>
    by_cases h : lt y x <;> simp [insSorted, h, ih]

theorem length_sortByStable (lt : α → α → Bool) (l : List α) :
    (sortByStable lt l).length = l.length := by
  induction l with
  | nil => rfl
  | cons x xs ih => simp [sortByStable, length_insSorted, ih]

theorem pairwise_insSorted (lt : α → α → Bool)
    (asym : ∀ a b, lt a b = true → lt b a = false)
    (ctrans : ∀ a b c, lt b a = false → lt c b = false → lt c a = false)
    (x : α) (l : List α) (hl : l.Pairwise (fun a b => lt b a = false)) :
    (insSorted lt x l).Pairwise (fun a b => lt b a = false) := by
  induction l with
  | nil => simp [insSorted]
  | cons y ys ih =>
    rcases List.pairwise_cons.mp hl with ⟨hy, hys⟩
    by_cases h : lt y x
    · rw [insSorted, if_pos h]
      refine List.pairwise_cons.mpr ⟨?_, ih hys⟩
      intro a ha
      rcases (mem_insSorted lt x a ys).mp ha with rfl | ha'
      · exact asym y a h
      · exact hy a ha'
    · rw [insSorted, if_neg h]
      refine List.pairwise_cons.mpr ⟨?_, hl⟩
      intro a ha
      rcases List.mem_cons.mp ha with rfl | ha'
      · exact Bool.not_eq_true _ ▸ (by simpa using h)
      · exact ctrans x y a (by simpa using h) (hy a ha')

theorem pairwise_sortByStable (lt : α → α → Bool)
    (asym : ∀ a b, lt a b = true → lt b a = false)
    (ctrans : ∀ a b c, lt b a = false → lt c b = false → lt c a = false)
    (l : List α) :
    (sortByStable lt l).Pairwise (fun a b => lt b a = false) := by
  induction l with
  | nil => simp [sortByStable]
  | cons x xs ih => exact pairwise_insSorted lt asym ctrans x _ ih

/-! ## File-system model (filehelpers.go) -/

/-- An on-disk file: its bytes, plus an optional injected read fault
(`failAfter = some k`: a copy reading this file fails after `k` output
bytes were written). -/
structure FileEntry where
  content : List Nat
  failAfter : Option Nat
  deriving Repr, DecidableEq

/-- The file system: an association list from path to entry (later
bindings shadowed away by insertion). -/
def FS := List (String × FileEntry)

instance : DecidableEq FS := by unfold FS; infer_instance

/-- Modelled `os.Open`/read: look a path up. -/
def fsLookup (fsys : FS) (p : String) : Option FileEntry :=
  ((fsys : List (String × FileEntry)).find? (fun kv => kv.1 == p)).map
    (fun kv => kv.2)

/-- Modelled `os.Create` plus a full write: bind a path, replacing any
previous binding. -/
def fsInsert (fsys : FS) (p : String) (e : FileEntry) : FS :=
  (p, e) :: (fsys : List (String × FileEntry)).filter (fun kv => kv.1 != p)

/-- Modelled `os.Remove`: drop a binding. -/
def fsRemove (fsys : FS) (p : String) : FS :=
  (fsys : List (String × FileEntry)).filter (fun kv => kv.1 != p)

theorem fsRemove_fsInsert (fsys : FS) (p : String) (e : FileEntry) :
    fsRemove (fsInsert fsys p e) p = fsRemove fsys p := by
  simp [fsRemove, fsInsert, List.filter_filter, Bool.and_self]

/-- copyFile models `copyFile(src, dst, useCompression, restore)` of
filehelpers.go: open src (failing if absent, before dst is touched),
create/truncate dst, then stream src to dst — compressing when
`useCompression && !restore`, decompressing when
`useCompression && restore`.  An injected read fault leaves a partial
destination file and reports failure. -/
def copyFile (comp decomp : List Nat → List Nat) (src dst : String)
    (useCompression restore : Bool) (fsys : FS) : FS × Bool :=
  match fsLookup fsys src with
  | none => (fsys, false)
  | some e =>
    let f := if useCompression then (if restore then decomp else comp)
             else fun bs => bs
    match e.failAfter with
    | some k => (fsInsert fsys dst ⟨(f e.content).take k, none⟩, false)
    | none => (fsInsert fsys dst ⟨f e.content, none⟩, true)

/-! ## Path helpers (filehelpers.go, Go filepath on POSIX) -/

/-- asDirectoryPath appends a trailing separator unless the path is
empty or already ends in one. -/
def asDirectoryPath (path : String) : String :=
  if path = "" then ""
  else if path.toList.getLast? = some '/' then path else path ++ "/"

/-- baseName models Go's `filepath.Base` on POSIX: strip trailing
separators, keep the last element; empty input gives ".", all-separator
input gives "/". -/
def baseName (p : String) : String :=
  if p = "" then "."
  else
    let r := p.toList.reverse.dropWhile (fun c => c == '/')
    if r = [] then "/"
    else String.mk ((r.takeWhile (fun c => c != '/')).reverse)

/-! ## Sanitization and query construction (filestore.go) -/

/-- The character set removed by `safeReplacer`. -/
def forbiddenCh (c : Char) : Bool :=
  c = '\'' || c = '%' || c = ';' || c = '"' || c = '\\'

/-- safeReplace models `safeReplacer.Replace`: every pair of the
replacer maps a single character to the empty string, so it deletes
exactly the characters of `forbiddenCh`. -/
def safeReplace (w : String) : String :=
  String.mk (w.toList.filter (fun c => !forbiddenCh c))

/-- buildTerm constructs the SQL fragment of the source's
`fmt.Sprintf` with the sanitized word: four LIKE alternatives
per column. -/
def buildTerm (column word : String) : String :=
  let w := safeReplace word
  column ++ " like '% " ++ w ++ "' or " ++ column ++ " like '" ++ w ++
    " %' or " ++ column ++ " like '% " ++ w ++ " %' or " ++ column ++
    " like '" ++ w ++ "'"

/-- Evaluation of the four LIKE alternatives emitted by `buildTerm`
against one field value. -/
def likeTermMatches (word field : String) : Bool :=
  let w := safeReplace word
  likeMatch ("% " ++ w) field || likeMatch (w ++ " %") field ||
    likeMatch ("% " ++ w ++ " %") field || likeMatch w field

/-- Split a char list at whitespace characters (empty runs appear as
empty segments and are filtered out by `fields`). -/
def splitWs : List Char → List (List Char)
  | [] => [[]]
  | c :: rest =>
    match splitWs rest with
    | [] => []
    | w :: ws =>
      if c.isWhitespace then [] :: w :: ws else (c :: w) :: ws

/-- Go's `strings.Fields`: whitespace-delimited words, empties
dropped. -/
def fields (text : String) : List String :=
  ((splitWs text.data).filter (fun w => w ≠ [])).map String.mk

/-- Go's `strings.Join(words, " ")`. -/
def joinSpace : List String → String
  | [] => ""
  | [w] => w
  | w :: ws => w ++ " " ++ joinSpace ws

/-- EncodeMetaphone splits the text into whitespace-delimited words
(Go `strings.Fields`), encodes each with the external metaphone3
encoder `encWord`, and joins the codes with single spaces. -/
def EncodeMetaphone (encWord : String → String) (text : String) : String :=
  joinSpace ((fields text).map encWord)

/-! ## Relational state (schema created by Open) -/

/-- A row of `Files(file_id integer primary key, checksum text)`. -/
structure FileRow where
  file_id : Nat
  checksum : String
  deriving Repr, DecidableEq

/-- A row of `Versions(version_id integer primary key, path, info,
fuzzy, version, date, file)`. -/
structure VersionRow where
  version_id : Nat
  path : String
  info : String
  fuzzy : String
  version : String
  date : String
  file : Nat
  deriving Repr, DecidableEq

/-- The catalog database. -/
structure DB where
  files : List FileRow
  versions : List VersionRow
  deriving Repr, DecidableEq

/-- External collaborators: Snappy compression/decompression, the
metaphone3 word encoder, Blake2b digesting (already hex-encoded), and
the FTS5 match predicate of the search engine. -/
structure Ext where
  comp : List Nat → List Nat
  decomp : List Nat → List Nat
  encWord : String → String
  checksum : List Nat → String
  ftsMatch : String → String → Bool

/-- Store state: root directory and compression option (`Dir`,
`Options` in the source — only the `Compress` bit of the options is
meaningful), the `db ≠ nil` open flag, the catalog, and the disk. -/
structure Filestore where
  Dir : String
  compress : Bool
  dbOpen : Bool
  db : DB
  fsys : FS
  deriving DecidableEq

/-- Errors surfaced by the operations (the distinctions the claims
need; all Go errors are values of type `error`). -/
inductive FsErr where
  | notOpen
  | ioErr
  | dbErr
  | invalidDate
  deriving Repr, DecidableEq

instance {ε α : Type} [DecidableEq ε] [DecidableEq α] :
    DecidableEq (Except ε α) := fun a b =>
  match a, b with
  | .ok x, .ok y =>
    if h : x = y then .isTrue (by rw [h]) else
      .isFalse (fun hc => h (by injection hc))
  | .error x, .error y =>
    if h : x = y then .isTrue (by rw [h]) else
      .isFalse (fun hc => h (by injection hc))
  | .ok _, .error _ => .isFalse (fun hc => Except.noConfusion hc)
  | .error _, .ok _ => .isFalse (fun hc => Except.noConfusion hc)

/-- Root returns the root directory, ending in a separator unless it
is the empty relative directory. -/
def Filestore.Root (fs : Filestore) : String :=
  if fs.Dir = "" then "versions/" else asDirectoryPath fs.Dir

/-- localPath returns `root/checksum/name`. -/
def Filestore.localPath (fs : Filestore) (name checksum : String) : String :=
  fs.Root ++ checksum ++ "/" ++ name

/-- queryFileID models the `queryIDStmt` query plus the source's
zero-initialised scan: 0 when no Files row carries the checksum. -/
def queryFileID (db : DB) (check : String) : Nat :=
  (((db.files.find? (fun fr => fr.checksum == check)).map
    (fun fr => fr.file_id)).getD 0)

/-- addVersion: look the digest up in Files; if absent, materialize
the blob (with `.snappy` suffix under compression) and insert a Files
row; then always insert a Versions row referencing the blob row. -/
def Filestore.addVersion (fs : Filestore) (E : Ext)
    (path info version check now : String) : Filestore × Option FsErr :=
  let name := baseName path
  let slashPath := path
  let fileID := queryFileID fs.db check
  if fileID = 0 then
    let dst0 := fs.localPath name check
    let dst := if fs.compress then dst0 ++ ".snappy" else dst0
    let res := copyFile E.comp E.decomp path dst fs.compress false fs.fsys
    if res.2 then
      let fid := fs.db.files.length + 1
      let row : VersionRow := ⟨fs.db.versions.length + 1, slashPath, info,
        EncodeMetaphone E.encWord info, version, now, fid⟩
      ({ fs with db := ⟨fs.db.files ++ [⟨fid, check⟩],
                        fs.db.versions ++ [row]⟩, fsys := res.1 }, none)
    else
      ({ fs with fsys := fsRemove res.1 dst }, some .ioErr)
  else
    let row : VersionRow := ⟨fs.db.versions.length + 1, slashPath, info,
      EncodeMetaphone E.encWord info, version, now, fileID⟩
    ({ fs with db := ⟨fs.db.files, fs.db.versions ++ [row]⟩ }, none)

/-- Checksum digests a file's full content.  The injected `failAfter`
fault is read as arising after the digest pass, so digesting succeeds
whenever the file exists. -/
def Filestore.Checksum (fs : Filestore) (E : Ext) (path : String) :
    Option String :=
  (fsLookup fs.fsys path).map (fun e => E.checksum e.content)

/-- Add: reject when not open, digest the source, then `addVersion`.
`now` is the catalog clock's `datetime('now')` string. -/
def Filestore.Add (fs : Filestore) (E : Ext)
    (path info version now : String) : Filestore × Option FsErr :=
  if !fs.dbOpen then (fs, some .notOpen)
  else
    match fs.Checksum E path with
    | none => (fs, some .ioErr)
    | some check => fs.addVersion E path info version check now

/-- FileVersion, the resolved view returned by the retrieval and
search API (filestore.go struct of the same name). -/
structure FileVersion where
  ID : Nat
  Name : String
  Path : String
  Local : String
  Info : String
  Fuzzy : String
  Version : String
  From : DateTime
  Checksum : String
  deriving Repr, DecidableEq

/-- The inner join `Versions inner join Files on
Versions.file=Files.file_id`, projecting each row to (row, checksum);
rows with a dangling file reference are dropped by the join. -/
def rowChecksum (db : DB) (row : VersionRow) : Option String :=
  ((db.files.find? (fun fr => fr.file_id == row.file)).map
    (fun fr => fr.checksum))

/-- Join a row list against Files in scan order. -/
def joinFiles (db : DB) (rows : List VersionRow) :
    List (VersionRow × String) :=
  rows.filterMap (fun r => (rowChecksum db r).map (fun c => (r, c)))

/-- Strict comparison for `ORDER BY date DESC` (ties keep scan
order). -/
def dateDescLT (a b : VersionRow × String) : Bool :=
  !strLe a.1.date b.1.date

/-- Strict comparison for `ORDER BY date` ascending (ties keep scan
order). -/
def dateAscLT (a b : VersionRow × String) : Bool :=
  !strLe b.1.date a.1.date

/-- SQL LIMIT: a negative limit means no limit in SQLite. -/
def sqlLimit (limit : Int) (l : List α) : List α :=
  if limit < 0 then l else l.take limit.toNat

/-- Row-to-FileVersion projection of `getVersions`: `Path` is the
stored path (`FromSlash` is the identity here), `Name` its base name,
`Local` the blob location `localPath(Name, Checksum)`. -/
def mkFileVersion (fs : Filestore) (pr : VersionRow × String)
    (t : DateTime) : FileVersion :=
  { ID := pr.1.version_id
    Name := baseName pr.1.path
    Path := pr.1.path
    Local := fs.localPath (baseName pr.1.path) pr.2
    Info := pr.1.info
    Fuzzy := pr.1.fuzzy
    Version := pr.1.version
    From := t
    Checksum := pr.2 }

/-- getVersions decodes scanned rows in order, failing with
InvalidDate at the first malformed stored timestamp. -/
def Filestore.getVersions (fs : Filestore) :
    List (VersionRow × String) → Except FsErr (List FileVersion)
  | [] => .ok []
  | pr :: rest =>
    match ParseDBDate pr.1.date with
    | none => .error .invalidDate
    | some t =>
      match fs.getVersions rest with
      | .error e => .error e
      | .ok vs => .ok (mkFileVersion fs pr t :: vs)

/-- Row pipeline of `getVersionsStmt`: filter by path, join Files,
order by date descending, limit. -/
def versionsRows (fs : Filestore) (path : String) (limit : Int) :
    List (VersionRow × String) :=
  sqlLimit limit (sortByStable dateDescLT
    (joinFiles fs.db (fs.db.versions.filter (fun r => r.path == path))))

/-- Versions returns FileVersion entries for all versions of a file,
newest first, truncated to `limit`. -/
def Filestore.Versions (fs : Filestore) (path : String) (limit : Int) :
    Except FsErr (List FileVersion) :=
  if !fs.dbOpen then .error .notOpen
  else fs.getVersions (versionsRows fs path limit)

/-- Get returns the latest version row for a path (`getVersionStmt`,
the same query as Versions with LIMIT 1), with `Name` and `Local`
derived from the argument path. -/
def Filestore.Get (fs : Filestore) (path : String) :
    Except FsErr FileVersion :=
  if !fs.dbOpen then .error .notOpen
  else
    match versionsRows fs path 1 with
    | [] => .error .dbErr
    | pr :: _ =>
      match ParseDBDate pr.1.date with
      | none => .error .invalidDate
      | some t =>
        .ok { ID := pr.1.version_id
              Name := baseName path
              Path := pr.1.path
              Local := fs.localPath (baseName path) pr.2
              Info := pr.1.info
              Fuzzy := pr.1.fuzzy
              Version := pr.1.version
              From := t
              Checksum := pr.2 }

/-- Row pipeline of `getVersionsAfterStmt`: additionally restricted to
`date > ToDBDate after` by SQLite TEXT comparison. -/
def versionsAfterRows (fs : Filestore) (path : String) (after : DateTime)
    (limit : Int) : List (VersionRow × String) :=
  sqlLimit limit (sortByStable dateDescLT
    (joinFiles fs.db (fs.db.versions.filter
      (fun r => r.path == path && !strLe r.date (ToDBDate after)))))

/-- VersionsAfter returns versions of a file dated strictly after
`after`, newest first, truncated to `limit`. -/
def Filestore.VersionsAfter (fs : Filestore) (path : String)
    (after : DateTime) (limit : Int) : Except FsErr (List FileVersion) :=
  if !fs.dbOpen then .error .notOpen
  else fs.getVersions (versionsAfterRows fs path after limit)

/-- One word's contribution to the SimpleSearch WHERE clause:
`buildTerm("info", w) or buildTerm("version", w)`. -/
def wordRowMatches (word : String) (r : VersionRow) : Bool :=
  likeTermMatches word r.info || likeTermMatches word r.version

/-- Row pipeline of the SimpleSearch query: OR across words and
fields, join Files, order by date ascending, limit. -/
def simpleSearchRows (fs : Filestore) (words : List String)
    (limit : Int) : List (VersionRow × String) :=
  sqlLimit limit (sortByStable dateAscLT
    (joinFiles fs.db (fs.db.versions.filter
      (fun r => words.any (fun w => wordRowMatches w r)))))

/-- SimpleSearch: substring-pattern OR-search over info and version
fields.  An empty word list builds an empty WHERE clause, which is a
SQL syntax error. -/
def Filestore.SimpleSearch (fs : Filestore) (words : List String)
    (limit : Int) : Except FsErr (List FileVersion) :=
  if !fs.dbOpen then .error .notOpen
  else if words.isEmpty then .error .dbErr
  else fs.getVersions (simpleSearchRows fs words limit)

/-- The row set of the FTS5 table `VersionsFts` that the FTS query
reads.  `VersionsFts` is created by Open as an external-content table
(`content='Versions'`): a MATCH query consults only its own inverted
index, fetching column values from `Versions` for rowids found there.
The program never writes to `VersionsFts` — no INSERT statements, no
triggers, no rebuild command — so in every state the program can
produce the index is empty and the query can yield no rows. -/
def versionsFtsRows (_fs : Filestore) : List VersionRow := []

/-- Row pipeline of the FTS query: match the term against the fuzzy
or info column (per the `fuzzy` flag) or the version or date column of
the rows served by the `VersionsFts` index, join Files, order by date
ascending, limit.  The candidate rows come from `versionsFtsRows`, the
(never-populated) index, not from the live `Versions` table. -/
def searchRows (fs : Filestore) (E : Ext) (term : String) (limit : Int)
    (fuzzy : Bool) : List (VersionRow × String) :=
  sqlLimit limit (sortByStable dateAscLT
    (joinFiles fs.db ((versionsFtsRows fs).filter
      (fun r => E.ftsMatch term (if fuzzy then r.fuzzy else r.info) ||
        E.ftsMatch term r.version || E.ftsMatch term r.date))))

/-- search performs an FTS5 term search against `VersionsFts`; if
`fuzzy`, the fuzzy column is matched instead of info. -/
def Filestore.search (fs : Filestore) (E : Ext) (term : String)
    (limit : Int) (fuzzy : Bool) : Except FsErr (List FileVersion) :=
  if !fs.dbOpen then .error .notOpen
  else fs.getVersions (searchRows fs E term limit fuzzy)

/-- Search = search with fuzzy=false. -/
def Filestore.Search (fs : Filestore) (E : Ext) (term : String)
    (limit : Int) : Except FsErr (List FileVersion) :=
  fs.search E term limit false

/-- FuzzySearch = search with fuzzy=true. -/
def Filestore.FuzzySearch (fs : Filestore) (E : Ext) (term : String)
    (limit : Int) : Except FsErr (List FileVersion) :=
  fs.search E term limit true

/-- Has: true iff a version row exists for the path; false (not an
error) when the store is not open or on query failure. -/
def Filestore.Has (fs : Filestore) (file : String) : Bool :=
  if !fs.dbOpen then false
  else fs.db.versions.any (fun r => r.path == file)

/-- Restore copies the blob at `localPath(version.Name,
version.Checksum)` to `dst/version.Name`, decompressing in-stream if
the store-wide compression option is set.  Note the source path it
reads carries no `.snappy` suffix. -/
def Filestore.Restore (fs : Filestore) (E : Ext) (version : FileVersion)
    (dst : String) : Filestore × Option FsErr :=
  let dstFile := asDirectoryPath dst ++ version.Name
  let srcFile := fs.localPath version.Name version.Checksum
  let res := copyFile E.comp E.decomp srcFile dstFile fs.compress true fs.fsys
  ({ fs with fsys := res.1 }, if res.2 then none else some .ioErr)

/-- RestoreAtSource restores into the version's original path. -/
def Filestore.RestoreAtSource (fs : Filestore) (E : Ext)
    (version : FileVersion) : Filestore × Option FsErr :=
  fs.Restore E version version.Path

/-! ## General lemmas about the query pipelines -/

/-- Placeholder timestamp used only to express the decoded value of a
row whose date is known to parse. -/
def dtDefault : DateTime := ⟨0, 0, 0, 0, 0, 0⟩

/-- The decoded timestamp of a joined row. -/
def parseD (pr : VersionRow × String) : DateTime :=
  (ParseDBDate pr.1.date).getD dtDefault

theorem getVersions_ok_of_all (fs : Filestore)
    (prs : List (VersionRow × String))
    (h : ∀ pr ∈ prs, (ParseDBDate pr.1.date).isSome) :
    fs.getVersions prs =
      .ok (prs.map (fun pr => mkFileVersion fs pr (parseD pr))) := by
  induction prs with
  | nil => rfl
  | cons pr rest ih =>
    have hpr := h pr (List.mem_cons_self _ _)
    rcases Option.isSome_iff_exists.mp hpr with ⟨t, ht⟩
    have hrest := ih (fun q hq => h q (List.mem_cons_of_mem _ hq))
    simp only [Filestore.getVersions, ht, hrest, List.map_cons, parseD,
      Option.getD]

theorem getVersions_err_of_ex (fs : Filestore)
    (prs : List (VersionRow × String))
    (h : ∃ pr ∈ prs, ParseDBDate pr.1.date = none) :
    fs.getVersions prs = .error .invalidDate := by
  induction prs with
  | nil => simp at h
  | cons pr rest ih =>
    rcases h with ⟨q, hq, hqn⟩
    rcases List.mem_cons.mp hq with rfl | hq'
    · simp [Filestore.getVersions, hqn]
    · cases hpr : ParseDBDate pr.1.date with
      | none => simp [Filestore.getVersions, hpr]
      | some t =>
        have := ih ⟨q, hq', hqn⟩
        simp [Filestore.getVersions, hpr, this]

theorem getVersions_ok_elim {fs : Filestore}
    {prs : List (VersionRow × String)} {vs : List FileVersion}
    (h : fs.getVersions prs = .ok vs) :
    (∀ pr ∈ prs, (ParseDBDate pr.1.date).isSome) ∧
      vs = prs.map (fun pr => mkFileVersion fs pr (parseD pr)) := by
  by_cases hall : ∀ pr ∈ prs, (ParseDBDate pr.1.date).isSome
  · refine ⟨hall, ?_⟩
    have := getVersions_ok_of_all fs prs hall
    rw [this] at h
    exact (Except.ok.injEq _ _).mp h.symm
  · push_neg at hall
    rcases hall with ⟨pr, hpr, hn⟩
    have := getVersions_err_of_ex fs prs
      ⟨pr, hpr, Option.not_isSome_iff_eq_none.mp hn⟩
    rw [this] at h
    cases h

theorem mem_sqlLimit {l : List α} {n : Int} {a : α}
    (h : a ∈ sqlLimit n l) : a ∈ l := by
  unfold sqlLimit at h
  split at h
  · exact h
  · exact List.mem_of_mem_take h

theorem length_sqlLimit {l : List α} {n : Int} (hn : 0 ≤ n) :
    ((sqlLimit n l).length : Int) ≤ n := by
  unfold sqlLimit
  rw [if_neg (by omega)]
  have h1 : (l.take n.toNat).length ≤ n.toNat := by
    simp [List.length_take_le]
  omega

theorem pairwise_sqlLimit {l : List α} {n : Int} {R : α → α → Prop}
    (h : l.Pairwise R) : (sqlLimit n l).Pairwise R := by
  unfold sqlLimit
  split
  · exact h
  · exact h.sublist (List.take_sublist _ _)

theorem sqlLimit_eq_self {l : List α} {n : Int}
    (h : (l.length : Int) ≤ n ∨ n < 0) : sqlLimit n l = l := by
  unfold sqlLimit
  split
  · rfl
  · next hn =>
    rcases h with h | h
    · exact List.take_of_length_le (by omega)
    · omega

theorem mem_joinFiles {db : DB} {rows : List VersionRow}
    {pr : VersionRow × String} :
    pr ∈ joinFiles db rows ↔
      pr.1 ∈ rows ∧ rowChecksum db pr.1 = some pr.2 := by
  unfold joinFiles
  rw [List.mem_filterMap]
  constructor
  · rintro ⟨r, hr, hmap⟩
    cases hc : rowChecksum db r with
    | none => rw [hc] at hmap; cases hmap
    | some c =>
      rw [hc] at hmap
      simp only [Option.map_some'] at hmap
      cases hmap
      exact ⟨hr, hc⟩
  · rintro ⟨hr, hc⟩
    exact ⟨pr.1, hr, by rw [hc]; rfl⟩

theorem bnot_eq_false {b : Bool} : ((!b) = false) ↔ b = true := by
  cases b <;> simp

theorem bnot_eq_true {b : Bool} : ((!b) = true) ↔ b = false := by
  cases b <;> simp

theorem pairwise_sort_dateDesc (l : List (VersionRow × String)) :
    (sortByStable dateDescLT l).Pairwise
      (fun a b => strLe b.1.date a.1.date = true) := by
  have h := pairwise_sortByStable dateDescLT
    (fun a b hab => by
      unfold dateDescLT at hab ⊢
      have hab' := bnot_eq_true.mp hab
      rcases Bool.or_eq_true _ _ |>.mp (strLe_total a.1.date b.1.date)
        with h | h
      · rw [hab'] at h; cases h
      · rw [bnot_eq_false, h])
    (fun a b c hba hcb => by
      unfold dateDescLT at hba hcb ⊢
      rw [bnot_eq_false] at hba hcb ⊢
      exact strLe_trans hcb hba)
    l
  exact h.imp (fun {a b} hab => by
    unfold dateDescLT at hab
    exact bnot_eq_false.mp hab)

theorem pairwise_sort_dateAsc (l : List (VersionRow × String)) :
    (sortByStable dateAscLT l).Pairwise
      (fun a b => strLe a.1.date b.1.date = true) := by
  have h := pairwise_sortByStable dateAscLT
    (fun a b hab => by
      unfold dateAscLT at hab ⊢
      have hab' := bnot_eq_true.mp hab
      rcases Bool.or_eq_true _ _ |>.mp (strLe_total a.1.date b.1.date)
        with h | h
      · rw [bnot_eq_false, h]
      · rw [hab'] at h; cases h)
    (fun a b c hba hcb => by
      unfold dateAscLT at hba hcb ⊢
      rw [bnot_eq_false] at hba hcb ⊢
      exact strLe_trans hba hcb)
    l
  exact h.imp (fun {a b} hab => by
    unfold dateAscLT at hab
    exact bnot_eq_false.mp hab)

/-- Rows returned by the Versions pipeline carry the queried path and
stem from the Versions table with their joined checksum. -/
theorem mem_versionsRows {fs : Filestore} {path : String} {limit : Int}
    {pr : VersionRow × String} (h : pr ∈ versionsRows fs path limit) :
    pr.1.path = path ∧ pr.1 ∈ fs.db.versions ∧
      rowChecksum fs.db pr.1 = some pr.2 := by
  have h1 := mem_sqlLimit h
  rw [mem_sortByStable] at h1
  rcases mem_joinFiles.mp h1 with ⟨h2, h3⟩
  rcases List.mem_filter.mp h2 with ⟨h4, h5⟩
  exact ⟨by simpa using h5, h4, h3⟩

/-- A LIMIT-1 pipeline yields at most one row. -/
theorem versionsRows_one_of_cons {fs : Filestore} {path : String}
    {pr : VersionRow × String} {rest : List (VersionRow × String)}
    (h : versionsRows fs path 1 = pr :: rest) : rest = [] := by
  have hl : (versionsRows fs path 1).length ≤ 1 := by
    unfold versionsRows sqlLimit
    rw [if_neg (by omega)]
    simp [List.length_take_le]
  rw [h] at hl
  simp only [List.length_cons] at hl
  exact List.eq_nil_of_length_eq_zero (by omega)

/-! ## Concrete instantiations used by witnesses and counterexamples -/

/-- Executable instantiation of the external collaborators: identity
compression (Snappy round-trips bytes), identity word encoding, a
digest rendering the byte list, an equality FTS matcher. -/
def extId : Ext :=
  { comp := id, decomp := id, encWord := id,
    checksum := fun bs => String.intercalate "-" (bs.map toString),
    ftsMatch := fun t s => t == s }

/-- Like `extId` but every FTS match succeeds. -/
def extAll : Ext :=
  { comp := id, decomp := id, encWord := id,
    checksum := fun bs => String.intercalate "-" (bs.map toString),
    ftsMatch := fun _ _ => true }

/-- Fold a list of `(path, info, version, now)` Add requests over a
store, keeping only the resulting state. -/
def applyAdds (E : Ext) (fs : Filestore)
    (rs : List (String × String × String × String)) : Filestore :=
  rs.foldl (fun st r => (st.Add E r.1 r.2.1 r.2.2.1 r.2.2.2).1) fs

/-- Catalog well-formedness maintained by the Add path: primary keys
are non-zero (SQLite rowids start at 1, and 0 is `addVersion`'s
not-found sentinel) and the UNIQUE index on `Files.checksum` holds. -/
def goodCatalog (db : DB) : Prop :=
  (∀ fr ∈ db.files, fr.file_id ≠ 0) ∧
    (db.files.map FileRow.checksum).Nodup

/-! ## Claim theorems -/

/-- C7: every quote, percent, semicolon and backslash character is
deleted (not escaped) from a search word before the four LIKE patterns
per field are built: the sanitized word is a subsequence of the input
(deletion, no escaping or substitution), it contains none of the
stripped characters, and `buildTerm` builds its four patterns from
exactly that sanitized word. -/
theorem spec_c7_sanitization (column word : String) :
    (safeReplace word).data.Sublist word.data ∧
    (∀ c ∈ (safeReplace word).data, forbiddenCh c = false) ∧
    safeReplace (safeReplace word) = safeReplace word ∧
    buildTerm column word =
      column ++ " like '% " ++ safeReplace word ++ "' or " ++ column ++
        " like '" ++ safeReplace word ++ " %' or " ++ column ++
        " like '% " ++ safeReplace word ++ " %' or " ++ column ++
        " like '" ++ safeReplace word ++ "'" := by
  refine ⟨List.filter_sublist _, ?_, ?_, rfl⟩
  · intro c hc
    have h := (List.mem_filter.mp hc).2
    exact bnot_eq_true.mp h
  · unfold safeReplace
    congr 1
    show List.filter _ (List.filter _ word.data) = List.filter _ word.data
    rw [List.filter_filter]
    simp [Bool.and_self]

/-- Witness for C7 at a concrete word containing every stripped
character. -/
theorem spec_c7_sanitization_witness :
    (safeReplace "f'o%o;x\"y\\z").data.Sublist "f'o%o;x\"y\\z".data ∧
    ('%' ∈ (safeReplace "f'o%o;x\"y\\z").data → False) :=
  ⟨(spec_c7_sanitization "info" "f'o%o;x\"y\\z").1,
   fun h => by
     have := (spec_c7_sanitization "info" "f'o%o;x\"y\\z").2.1 '%' h
     simp [forbiddenCh] at this⟩

/-- C10: on an open store, a path with no version rows makes Versions
and VersionsAfter return an empty list with no error (never a NotFound
failure), while Get on the same path returns an error (the scan of the
empty result set fails). -/
theorem spec_c10_unknown_path (fs : Filestore) (path : String)
    (after : DateTime) (limit limit2 : Int)
    (hopen : fs.dbOpen = true)
    (hnone : fs.db.versions.filter (fun r => r.path == path) = []) :
    fs.Versions path limit = .ok [] ∧
    fs.VersionsAfter path after limit2 = .ok [] ∧
    fs.Get path = .error .dbErr := by
  have hnone2 : fs.db.versions.filter
      (fun r => r.path == path && !strLe r.date (ToDBDate after)) = [] := by
    rw [List.filter_eq_nil_iff] at hnone ⊢
    intro r hr
    simp only [Bool.and_eq_true, not_and]
    intro hp
    exact absurd hp (hnone r hr)
  have hrows : ∀ limit', versionsRows fs path limit' = [] := by
    intro limit'
    unfold versionsRows
    rw [hnone]
    simp [joinFiles, sortByStable, sqlLimit]
  refine ⟨?_, ?_, ?_⟩
  · unfold Filestore.Versions
    rw [hopen, hrows limit]
    rfl
  · unfold Filestore.VersionsAfter versionsAfterRows
    rw [hopen, hnone2]
    simp only [Bool.not_true, Bool.false_eq_true, if_false]
    simp [joinFiles, sortByStable, sqlLimit]
    rfl
  · unfold Filestore.Get
    rw [hopen, hrows 1]
    rfl

/-- Witness for C10: an empty open store. -/
theorem spec_c10_unknown_path_witness :
    ((⟨"store", false, true, ⟨[], []⟩, []⟩ : Filestore).Versions "p" 5 =
      .ok []) ∧
    ((⟨"store", false, true, ⟨[], []⟩, []⟩ : Filestore).Get "p" =
      .error .dbErr) :=
  ⟨(spec_c10_unknown_path ⟨"store", false, true, ⟨[], []⟩, []⟩ "p"
      dtDefault 5 5 rfl rfl).1,
   (spec_c10_unknown_path ⟨"store", false, true, ⟨[], []⟩, []⟩ "p"
      dtDefault 5 5 rfl rfl).2.2⟩

/-- C9: any read that retrieves a row whose persisted timestamp does
not parse fails with the InvalidDate error: Get when the latest row is
malformed, and Versions, VersionsAfter, SimpleSearch and the FTS
search whenever a malformed row is in their retrieved row set. -/
theorem spec_c9_invalid_date (fs : Filestore) (E : Ext)
    (path term : String) (words : List String) (after : DateTime)
    (limit : Int) (fz : Bool) (hopen : fs.dbOpen = true) :
    (∀ pr rest, versionsRows fs path 1 = pr :: rest →
      ParseDBDate pr.1.date = none → fs.Get path = .error .invalidDate) ∧
    ((∃ pr ∈ versionsRows fs path limit, ParseDBDate pr.1.date = none) →
      fs.Versions path limit = .error .invalidDate) ∧
    ((∃ pr ∈ versionsAfterRows fs path after limit,
        ParseDBDate pr.1.date = none) →
      fs.VersionsAfter path after limit = .error .invalidDate) ∧
    (words ≠ [] →
      (∃ pr ∈ simpleSearchRows fs words limit,
        ParseDBDate pr.1.date = none) →
      fs.SimpleSearch words limit = .error .invalidDate) ∧
    ((∃ pr ∈ searchRows fs E term limit fz,
        ParseDBDate pr.1.date = none) →
      fs.search E term limit fz = .error .invalidDate) := by
  refine ⟨?_, ?_, ?_, ?_, ?_⟩
  · intro pr rest hrows hbad
    unfold Filestore.Get
    rw [hopen, hrows]
    simp [hbad]
  · intro hex
    unfold Filestore.Versions
    rw [hopen]
    simp [getVersions_err_of_ex fs _ hex]
  · intro hex
    unfold Filestore.VersionsAfter
    rw [hopen]
    simp [getVersions_err_of_ex fs _ hex]
  · intro hw hex
    unfold Filestore.SimpleSearch
    rw [hopen]
    simp only [Bool.not_true, Bool.false_eq_true, if_false]
    rw [if_neg (by simpa [List.isEmpty_iff] using hw)]
    exact getVersions_err_of_ex fs _ hex
  · intro hex
    unfold Filestore.search
    rw [hopen]
    simp [getVersions_err_of_ex fs _ hex]

/-- A store whose single version row has an unparseable date. -/
def corruptStore : Filestore :=
  { Dir := "", compress := false, dbOpen := true,
    db := ⟨[⟨1, "c"⟩], [⟨1, "p", "i", "f", "v", "garbage", 1⟩]⟩,
    fsys := [] }

/-- Witness for C9 at the corrupt store. -/
theorem spec_c9_invalid_date_witness :
    corruptStore.Get "p" = .error .invalidDate ∧
    corruptStore.Versions "p" 5 = .error .invalidDate :=
  ⟨(spec_c9_invalid_date corruptStore extId "p" "t" ["w"] dtDefault 5
      false rfl).1 ⟨⟨1, "p", "i", "f", "v", "garbage", 1⟩, "c"⟩ [] rfl rfl,
   (spec_c9_invalid_date corruptStore extId "p" "t" ["w"] dtDefault 5
      false rfl).2.1
     ⟨⟨⟨1, "p", "i", "f", "v", "garbage", 1⟩, "c"⟩, by decide, rfl⟩⟩

/-- A store that has never been opened (`db == nil`), with a blob
already on disk. -/
def closedStore : Filestore :=
  { Dir := "store", compress := false, dbOpen := false,
    db := ⟨[⟨1, "c"⟩], [⟨1, "p", "i", "f", "v", "2020-01-01 00:00:00", 1⟩]⟩,
    fsys := [("store/c/f", ⟨[7], none⟩)] }

/-- A FileVersion handle pointing at the blob of `closedStore`. -/
def fvClosed : FileVersion :=
  ⟨1, "f", "p", "store/c/f", "i", "f", "v", ⟨2020, 1, 1, 0, 0, 0⟩, "c"⟩

/-- C8 counterexample: on a store in the Closed state, Restore does
not fail with a NotOpen error — it performs the copy and succeeds —
and Has returns false rather than a NotOpen error. -/
theorem spec_c8_counterexample :
    (closedStore.Restore extId fvClosed "out").2 = none ∧
    fsLookup (closedStore.Restore extId fvClosed "out").1.fsys "out/f" =
      some ⟨[7], none⟩ ∧
    closedStore.Has "p" = false :=
  ⟨rfl, rfl, rfl⟩

/-- C8 amended: while the store is Closed, Add, Get, Versions,
VersionsAfter, SimpleSearch, Search and FuzzySearch fail with the
NotOpen error leaving the store unchanged; Has returns false without
an error (its signature carries no error); Restore and RestoreAtSource
perform no open check at all — they behave identically on the closed
store and on the same store marked open. -/
theorem spec_c8_closed_state (fs : Filestore) (E : Ext)
    (path info ver now term : String) (words : List String)
    (after : DateTime) (limit : Int) (fz : Bool) (v : FileVersion)
    (dst : String) (h : fs.dbOpen = false) :
    fs.Add E path info ver now = (fs, some .notOpen) ∧
    fs.Get path = .error .notOpen ∧
    fs.Versions path limit = .error .notOpen ∧
    fs.VersionsAfter path after limit = .error .notOpen ∧
    fs.SimpleSearch words limit = .error .notOpen ∧
    fs.search E term limit fz = .error .notOpen ∧
    fs.Search E term limit = .error .notOpen ∧
    fs.FuzzySearch E term limit = .error .notOpen ∧
    fs.Has path = false ∧
    fs.Restore E v dst =
      (fun r => ({ r.1 with dbOpen := false }, r.2))
        (({ fs with dbOpen := true }).Restore E v dst) ∧
    fs.RestoreAtSource E v =
      (fun r => ({ r.1 with dbOpen := false }, r.2))
        (({ fs with dbOpen := true }).RestoreAtSource E v) := by
  cases fs with
  | mk Dir compress dbOpen db fsys =>
    cases h
    refine ⟨rfl, rfl, rfl, rfl, rfl, rfl, rfl, rfl, rfl, rfl, rfl⟩

/-- Witness for C8 amended at the concrete closed store. -/
theorem spec_c8_closed_state_witness :
    closedStore.Add extId "p" "i" "v" "2020-01-01 00:00:00" =
      (closedStore, some .notOpen) ∧
    closedStore.Get "p" = .error .notOpen :=
  ⟨(spec_c8_closed_state closedStore extId "p" "i" "v"
      "2020-01-01 00:00:00" "t" ["w"] dtDefault 5 false fvClosed "out"
      rfl).1,
   (spec_c8_closed_state closedStore extId "p" "i" "v"
      "2020-01-01 00:00:00" "t" ["w"] dtDefault 5 false fvClosed "out"
      rfl).2.1⟩

/-- C3: when the copy of the source bytes into the blob store fails
partway on an open store, Add removes the partially written
destination file, leaves the catalog untouched (no Files row, no
Versions row), and returns an I/O error. -/
theorem spec_c3_copy_failure (fs : Filestore) (E : Ext)
    (path info ver now dst : String) (content : List Nat) (k : Nat)
    (hopen : fs.dbOpen = true)
    (hsrc : fsLookup fs.fsys path = some ⟨content, some k⟩)
    (hfresh : queryFileID fs.db (E.checksum content) = 0)
    (hdst : dst = (if fs.compress
      then fs.localPath (baseName path) (E.checksum content) ++ ".snappy"
      else fs.localPath (baseName path) (E.checksum content))) :
    fs.Add E path info ver now =
      ({ fs with fsys := fsRemove fs.fsys dst }, some .ioErr) := by
  unfold Filestore.Add Filestore.Checksum
  rw [hopen, hsrc]
  simp only [Bool.not_true, Bool.false_eq_true, if_false, Option.map_some']
  unfold Filestore.addVersion
  rw [hfresh]
  simp only [if_pos rfl]
  unfold copyFile
  rw [hsrc]
  simp only
  cases hc : fs.compress with
  | false =>
    simp only [hc, Bool.false_eq_true, if_false] at hdst ⊢
    rw [← hdst, fsRemove_fsInsert]
    simp [hopen]
  | true =>
    simp only [hc, if_true] at hdst ⊢
    rw [← hdst, fsRemove_fsInsert]
    simp [hopen]

/-- Witness for C3: a copy fault injected on a fresh open store. -/
theorem spec_c3_copy_failure_witness :
    (⟨"store", false, true, ⟨[], []⟩,
       [("a.txt", ⟨[1, 2, 3], some 1⟩)]⟩ : Filestore).Add extId
      "a.txt" "i" "1.0" "2020-01-01 10:00:00" =
    (⟨"store", false, true, ⟨[], []⟩,
       [("a.txt", ⟨[1, 2, 3], some 1⟩)]⟩, some .ioErr) := by
  have h := spec_c3_copy_failure
    ⟨"store", false, true, ⟨[], []⟩, [("a.txt", ⟨[1, 2, 3], some 1⟩)]⟩
    extId "a.txt" "i" "1.0" "2020-01-01 10:00:00" "store/1-2-3/a.txt"
    [1, 2, 3] 1 rfl rfl rfl rfl
  rw [h]
  rfl

theorem checksum_not_mem_of_queryFileID_zero {db : DB} {c : String}
    (hg : ∀ fr ∈ db.files, fr.file_id ≠ 0) (h0 : queryFileID db c = 0) :
    c ∉ db.files.map FileRow.checksum := by
  intro hmem
  rcases List.mem_map.mp hmem with ⟨fr, hfr, hc⟩
  cases hf : db.files.find? (fun r => r.checksum == c) with
  | none =>
    have := List.find?_eq_none.mp hf fr hfr
    simp [hc] at this
  | some fr' =>
    have hmem' := List.mem_of_find?_eq_some hf
    have hq : queryFileID db c = fr'.file_id := by
      simp [queryFileID, hf]
    rw [h0] at hq
    exact hg fr' hmem' hq.symm

theorem goodCatalog_append_new {db : DB} {c : String} (vrow : VersionRow)
    (hg : goodCatalog db) (h0 : queryFileID db c = 0) :
    goodCatalog ⟨db.files ++ [⟨db.files.length + 1, c⟩],
      db.versions ++ [vrow]⟩ := by
  constructor
  · intro fr hfr
    rcases List.mem_append.mp hfr with hfr | hfr
    · exact hg.1 fr hfr
    · simp only [List.mem_singleton] at hfr
      subst hfr
      simp
  · show (List.map FileRow.checksum
      (db.files ++ [⟨db.files.length + 1, c⟩])).Nodup
    rw [List.map_append]
    simp only [List.map_cons, List.map_nil]
    rw [List.nodup_append]
    refine ⟨hg.2, List.nodup_singleton _, ?_⟩
    intro x hx hx'
    simp only [List.mem_singleton] at hx'
    subst hx'
    exact checksum_not_mem_of_queryFileID_zero hg.1 h0 hx

theorem addVersion_preserves_goodCatalog (fs : Filestore) (E : Ext)
    (p i v c n : String) (hg : goodCatalog fs.db) :
    goodCatalog ((fs.addVersion E p i v c n).1).db := by
  unfold Filestore.addVersion
  dsimp only
  split
  · next h0 =>
    split <;> split <;>
      first
      | exact goodCatalog_append_new _ hg h0
      | exact hg
  · exact hg

theorem add_preserves_goodCatalog (fs : Filestore) (E : Ext)
    (p i v n : String) (hg : goodCatalog fs.db) :
    goodCatalog ((fs.Add E p i v n).1).db := by
  unfold Filestore.Add
  split
  · exact hg
  · cases hchk : fs.Checksum E p with
    | none => exact hg
    | some c => exact addVersion_preserves_goodCatalog fs E p i v c n hg

/-- Source files with identical content at two logical paths. -/
def twoFileFS : FS :=
  [("a.txt", ⟨[1, 2, 3], none⟩), ("b.txt", ⟨[1, 2, 3], none⟩)]

/-- A fresh open store over those two source files. -/
def dedupBase : Filestore := ⟨"store", false, true, ⟨[], []⟩, twoFileFS⟩

/-- The state after adding the first file. -/
def dedupMid : Filestore :=
  (dedupBase.Add extId "a.txt" "ia" "1.0" "2020-01-01 10:00:00").1

/-- The state after adding both identical files at different paths. -/
def dedupScenario : Filestore :=
  applyAdds extId dedupBase
    [("a.txt", "ia", "1.0", "2020-01-01 10:00:00"),
     ("b.txt", "ib", "1.0", "2020-01-01 10:00:01")]

/-- C1: (1) every sequence of Adds preserves the at-most-one-Files-row
per digest invariant (with non-zero primary keys); (2) an Add whose
digest already has a Files row inserts no Files row and writes no blob
— only a new Versions row referencing the existing row's id; (3) two
Adds of identical content at different paths yield exactly one Files
row, two Versions rows referencing it, and exactly one blob on disk. -/
theorem spec_c1_dedup :
    (∀ (E : Ext) (fs : Filestore) rs, goodCatalog fs.db →
      goodCatalog (applyAdds E fs rs).db) ∧
    (∀ (E : Ext) (fs : Filestore) (path info ver now : String)
      (content : List Nat) (fa : Option Nat) (fr : FileRow),
      fs.dbOpen = true →
      fsLookup fs.fsys path = some ⟨content, fa⟩ →
      fs.db.files.find? (fun r => r.checksum == E.checksum content) =
        some fr →
      fr.file_id ≠ 0 →
      fs.Add E path info ver now =
        ({ fs with db := ⟨fs.db.files, fs.db.versions ++
            [⟨fs.db.versions.length + 1, path, info,
              EncodeMetaphone E.encWord info, ver, now, fr.file_id⟩]⟩ },
         none)) ∧
    (dedupScenario.db.files = [⟨1, "1-2-3"⟩] ∧
      dedupScenario.db.versions.map
          (fun r => (r.version_id, r.path, r.file)) =
        [(1, "a.txt", 1), (2, "b.txt", 1)] ∧
      (dedupScenario.fsys : List (String × FileEntry)).map Prod.fst =
        ["store/1-2-3/a.txt", "a.txt", "b.txt"]) := by
  refine ⟨?_, ?_, rfl, rfl, rfl⟩
  · intro E fs rs hg
    induction rs generalizing fs with
    | nil => exact hg
    | cons r rest ih =>
      exact ih _ (add_preserves_goodCatalog fs E r.1 r.2.1 r.2.2.1 r.2.2.2 hg)
  · intro E fs path info ver now content fa fr hopen hsrc hfound hid
    unfold Filestore.Add Filestore.Checksum
    rw [hopen, hsrc]
    simp only [Bool.not_true, Bool.false_eq_true, if_false,
      Option.map_some']
    unfold Filestore.addVersion
    have hq : queryFileID fs.db (E.checksum content) = fr.file_id := by
      simp [queryFileID, hfound]
    rw [hq, if_neg hid]
    simp [hopen]

/-- Witness for C1: the invariant holds for the concrete two-add
scenario, and the second (duplicate-digest) Add only appends a
version row referencing file 1. -/
theorem spec_c1_dedup_witness :
    goodCatalog dedupScenario.db ∧
    dedupMid.Add extId "b.txt" "ib" "1.0" "2020-01-01 10:00:01" =
      ({ dedupMid with db := ⟨dedupMid.db.files, dedupMid.db.versions ++
          [⟨dedupMid.db.versions.length + 1, "b.txt", "ib",
            EncodeMetaphone extId.encWord "ib", "1.0",
            "2020-01-01 10:00:01", 1⟩]⟩ }, none) :=
  ⟨spec_c1_dedup.1 extId dedupBase
     [("a.txt", "ia", "1.0", "2020-01-01 10:00:00"),
      ("b.txt", "ib", "1.0", "2020-01-01 10:00:01")]
     ⟨fun fr h => absurd h (List.not_mem_nil fr), List.nodup_nil⟩,
   spec_c1_dedup.2.1 extId dedupMid "b.txt" "ib" "1.0"
     "2020-01-01 10:00:01" [1, 2, 3] none ⟨1, "1-2-3"⟩ rfl rfl rfl
     (by decide)⟩

/-- A store holding two versions of the same path with identical
timestamps (two Adds within the same clock second). -/
def tieStore : Filestore :=
  { Dir := "store", compress := false, dbOpen := true,
    db := ⟨[⟨1, "c"⟩],
      [⟨1, "p", "i1", "f1", "v1", "2020-01-01 10:00:00", 1⟩,
       ⟨2, "p", "i2", "f2", "v2", "2020-01-01 10:00:00", 1⟩]⟩,
    fsys := [] }

/-- C4 counterexample: with two rows of equal timestamp the SQL query
(which orders by date only, with no identity tie-break) yields the row
with the LOWEST identity first — both for Versions and for Get — so
"ties broken by highest identity" fails: the claim requires the first
element (and Get) to be version 2. -/
theorem spec_c4_counterexample :
    tieStore.Versions "p" 2 =
      .ok [⟨1, "p", "p", "store/c/p", "i1", "f1", "v1",
             ⟨2020, 1, 1, 10, 0, 0⟩, "c"⟩,
           ⟨2, "p", "p", "store/c/p", "i2", "f2", "v2",
             ⟨2020, 1, 1, 10, 0, 0⟩, "c"⟩] ∧
    tieStore.Get "p" =
      .ok ⟨1, "p", "p", "store/c/p", "i1", "f1", "v1",
            ⟨2020, 1, 1, 10, 0, 0⟩, "c"⟩ :=
  ⟨rfl, rfl⟩

/-- C4 amended: Versions returns at most N records, ordered descending
by timestamp (ties kept in table order, i.e. lowest identity first —
the query has no identity tie-break), and Get equals the head of
Versions(path, 1). -/
theorem spec_c4_history_order (fs : Filestore) (path : String)
    (limit : Int) (vs : List FileVersion)
    (hopen : fs.dbOpen = true) (hlim : 1 ≤ limit)
    (hvs : fs.Versions path limit = .ok vs) :
    (vs.length : Int) ≤ limit ∧
    vs.Pairwise
      (fun a b => strLe (ToDBDate b.From) (ToDBDate a.From) = true) ∧
    (∀ v vs', fs.Versions path 1 = .ok (v :: vs') →
      fs.Get path = .ok v) := by
  unfold Filestore.Versions at hvs
  rw [hopen] at hvs
  simp only [Bool.not_true, Bool.false_eq_true, if_false] at hvs
  obtain ⟨hall, hmap⟩ := getVersions_ok_elim hvs
  refine ⟨?_, ?_, ?_⟩
  · have h1 : ((versionsRows fs path limit).length : Int) ≤ limit := by
      unfold versionsRows
      exact length_sqlLimit (by omega)
    rw [hmap, List.length_map]
    exact h1
  · have hrows : (versionsRows fs path limit).Pairwise
        (fun a b => strLe b.1.date a.1.date = true) := by
      unfold versionsRows
      exact pairwise_sqlLimit (pairwise_sort_dateDesc _)
    rw [hmap, List.pairwise_map]
    refine hrows.imp_of_mem ?_
    intro a b ha hb hab
    obtain ⟨ta, hta⟩ := Option.isSome_iff_exists.mp (hall a ha)
    obtain ⟨tb, htb⟩ := Option.isSome_iff_exists.mp (hall b hb)
    have hea : ToDBDate (parseD a) = a.1.date := by
      rw [parseD, hta]
      exact ToDBDate_ParseDBDate hta
    have heb : ToDBDate (parseD b) = b.1.date := by
      rw [parseD, htb]
      exact ToDBDate_ParseDBDate htb
    show strLe (ToDBDate (mkFileVersion fs b (parseD b)).From)
        (ToDBDate (mkFileVersion fs a (parseD a)).From) = true
    rw [show (mkFileVersion fs b (parseD b)).From = parseD b from rfl,
      show (mkFileVersion fs a (parseD a)).From = parseD a from rfl,
      hea, heb]
    exact hab
  · intro v vs' h1
    unfold Filestore.Versions at h1
    rw [hopen] at h1
    simp only [Bool.not_true, Bool.false_eq_true, if_false] at h1
    obtain ⟨hall1, hmap1⟩ := getVersions_ok_elim h1
    cases hrows1 : versionsRows fs path 1 with
    | nil => rw [hrows1] at hmap1; cases hmap1
    | cons pr rest =>
      rw [hrows1] at hmap1
      simp only [List.map_cons, List.cons.injEq] at hmap1
      obtain ⟨hv, _⟩ := hmap1
      have hmem : pr ∈ versionsRows fs path 1 := by
        rw [hrows1]; exact List.mem_cons_self _ _
      have hpath : pr.1.path = path := (mem_versionsRows hmem).1
      obtain ⟨t, ht⟩ := Option.isSome_iff_exists.mp
        (hall1 pr (by rw [hrows1]; exact List.mem_cons_self _ _))
      unfold Filestore.Get
      rw [hopen]
      simp only [Bool.not_true, Bool.false_eq_true, if_false]
      rw [hrows1]
      simp only [ht]
      rw [hv]
      show Except.ok _ = Except.ok (mkFileVersion fs pr (parseD pr))
      rw [parseD, ht]
      simp only [Option.getD_some]
      unfold mkFileVersion
      rw [hpath]

/-- Witness for C4 amended at a concrete two-version store. -/
theorem spec_c4_history_order_witness :
    ∃ vs, tieStore.Versions "p" 5 = .ok vs ∧
      ((vs.length : Int) ≤ 5 ∧
       vs.Pairwise
         (fun a b => strLe (ToDBDate b.From) (ToDBDate a.From) = true) ∧
       (∀ v vs', tieStore.Versions "p" 1 = .ok (v :: vs') →
         tieStore.Get "p" = .ok v)) :=
  ⟨[⟨1, "p", "p", "store/c/p", "i1", "f1", "v1",
      ⟨2020, 1, 1, 10, 0, 0⟩, "c"⟩,
    ⟨2, "p", "p", "store/c/p", "i2", "f2", "v2",
      ⟨2020, 1, 1, 10, 0, 0⟩, "c"⟩], rfl,
   spec_c4_history_order tieStore "p" 5 _ rfl (by omega) rfl⟩

/-- A store holding two versions whose info fields are the spelling
variants the spec's phonetic-tolerance property is about. -/
def smithStore : Filestore :=
  { Dir := "store", compress := false, dbOpen := true,
    db := ⟨[⟨1, "c1"⟩, ⟨2, "c2"⟩],
      [⟨1, "a", "Smith", "SM0", "v", "2020-01-01 10:00:00", 1⟩,
       ⟨2, "b", "Smyth", "SM0", "v", "2020-01-02 10:00:00", 2⟩]⟩,
    fsys := [] }

/-- C5: the FTS query reads `VersionsFts`, whose external-content
index is never populated by the program, so Search and FuzzySearch
return the empty list on every open store, for every term, limit and
match oracle — even on a store holding rows whose info ("Smith",
"Smyth") any matcher would accept.  No result list the claim talks
about (descending order, fuzzy-column matches) can ever be produced. -/
theorem spec_c5_fts_unpopulated (fs : Filestore) (E : Ext)
    (term : String) (limit : Int) (fz : Bool)
    (hopen : fs.dbOpen = true) :
    fs.search E term limit fz = .ok [] ∧
    fs.Search E term limit = .ok [] ∧
    fs.FuzzySearch E term limit = .ok [] ∧
    smithStore.Search extAll "Smith" 10 = .ok [] ∧
    smithStore.FuzzySearch extAll "Smith" 10 = .ok [] ∧
    smithStore.db.versions.map (fun r => r.info) = ["Smith", "Smyth"] := by
  have h : ∀ fz', fs.search E term limit fz' = .ok [] := by
    intro fz'
    unfold Filestore.search
    rw [hopen]
    simp only [Bool.not_true, Bool.false_eq_true, if_false]
    show fs.getVersions (searchRows fs E term limit fz') = .ok []
    unfold searchRows versionsFtsRows
    simp only [List.filter_nil]
    show fs.getVersions (sqlLimit limit (sortByStable dateAscLT
      (joinFiles fs.db []))) = .ok []
    unfold joinFiles sortByStable sqlLimit
    simp only [List.filterMap_nil, List.take_nil, ite_self]
    rfl
  exact ⟨h fz, h false, h true, rfl, rfl, rfl⟩

/-- Witness for C5 at the concrete Smith/Smyth store. -/
theorem spec_c5_fts_unpopulated_witness :
    smithStore.search extAll "Smith" 10 false = .ok [] :=
  (spec_c5_fts_unpopulated smithStore extAll "Smith" 10 false rfl).1

/-- A store with a single row whose info field contains "foo" as a
prefix substring but not as a delimited token. -/
def fooStore : Filestore :=
  { Dir := "store", compress := false, dbOpen := true,
    db := ⟨[⟨1, "c"⟩],
      [⟨1, "p", "foobar", "f", "xyz", "2020-01-01 00:00:00", 1⟩]⟩,
    fsys := [] }

/-- C6 counterexample: info "foobar" contains the word "foo" as a
prefix (hence as a substring), yet SimpleSearch(["foo"], 10) returns
nothing: the four LIKE patterns only match "foo" as a whole field or a
space-delimited token, not as a bare substring. -/
theorem spec_c6_counterexample :
    fooStore.SimpleSearch ["foo"] 10 = .ok [] ∧
    "foo".data.isPrefixOf "foobar".data = true :=
  ⟨rfl, rfl⟩

/-- C6 amended: SimpleSearch returns exactly the versions whose info
or version field matches one of the four LIKE patterns built from each
sanitized word — whole-field, leading token `w %`, trailing token
`% w`, or interior token `% w %` (token matching, not general
substring containment) — OR across words and fields, ordered by
timestamp ascending and truncated to `limit`. -/
theorem spec_c6_simple_search (fs : Filestore) (words : List String)
    (limit : Int) (vs : List FileVersion)
    (hopen : fs.dbOpen = true) (hw : words ≠ [])
    (hvs : fs.SimpleSearch words limit = .ok vs) :
    (∀ v ∈ vs, ∃ r ∈ fs.db.versions,
      words.any (fun w => wordRowMatches w r) = true ∧
      v.ID = r.version_id ∧ v.Info = r.info ∧ v.Version = r.version) ∧
    ((((joinFiles fs.db (fs.db.versions.filter
          (fun r => words.any (fun w => wordRowMatches w r)))).length :
            Int) ≤ limit ∨ limit < 0) →
      ∀ r ∈ fs.db.versions, words.any (fun w => wordRowMatches w r) = true →
        ∀ c, rowChecksum fs.db r = some c →
          ∃ v ∈ vs, v.ID = r.version_id) ∧
    vs.Pairwise
      (fun a b => strLe (ToDBDate a.From) (ToDBDate b.From) = true) ∧
    (0 ≤ limit → (vs.length : Int) ≤ limit) := by
  unfold Filestore.SimpleSearch at hvs
  rw [hopen] at hvs
  simp only [Bool.not_true, Bool.false_eq_true, if_false] at hvs
  rw [if_neg (by simpa [List.isEmpty_iff] using hw)] at hvs
  obtain ⟨hall, hmap⟩ := getVersions_ok_elim hvs
  refine ⟨?_, ?_, ?_, ?_⟩
  · intro v hv
    rw [hmap] at hv
    rcases List.mem_map.mp hv with ⟨pr, hpr, hveq⟩
    have h1 := mem_sqlLimit hpr
    rw [mem_sortByStable] at h1
    rcases mem_joinFiles.mp h1 with ⟨h2, _⟩
    rcases List.mem_filter.mp h2 with ⟨h4, h5⟩
    exact ⟨pr.1, h4, h5, by rw [← hveq]; exact ⟨rfl, rfl, rfl⟩⟩
  · intro hlen r hr hmatch c hc
    have hmem : (r, c) ∈ joinFiles fs.db (fs.db.versions.filter
        (fun r => words.any (fun w => wordRowMatches w r))) :=
      mem_joinFiles.mpr ⟨List.mem_filter.mpr ⟨hr, hmatch⟩, hc⟩
    have hmem2 : (r, c) ∈ simpleSearchRows fs words limit := by
      unfold simpleSearchRows
      rw [sqlLimit_eq_self (by
        rw [length_sortByStable]
        exact hlen)]
      rw [mem_sortByStable]
      exact hmem
    refine ⟨mkFileVersion fs (r, c) (parseD (r, c)), ?_, rfl⟩
    rw [hmap]
    exact List.mem_map_of_mem _ hmem2
  · have hrows : (simpleSearchRows fs words limit).Pairwise
        (fun a b => strLe a.1.date b.1.date = true) := by
      unfold simpleSearchRows
      exact pairwise_sqlLimit (pairwise_sort_dateAsc _)
    rw [hmap, List.pairwise_map]
    refine hrows.imp_of_mem ?_
    intro a b ha hb hab
    obtain ⟨ta, hta⟩ := Option.isSome_iff_exists.mp (hall a ha)
    obtain ⟨tb, htb⟩ := Option.isSome_iff_exists.mp (hall b hb)
    have hea : ToDBDate (parseD a) = a.1.date := by
      rw [parseD, hta]
      exact ToDBDate_ParseDBDate hta
    have heb : ToDBDate (parseD b) = b.1.date := by
      rw [parseD, htb]
      exact ToDBDate_ParseDBDate htb
    show strLe (ToDBDate (mkFileVersion fs a (parseD a)).From)
        (ToDBDate (mkFileVersion fs b (parseD b)).From) = true
    rw [show (mkFileVersion fs b (parseD b)).From = parseD b from rfl,
      show (mkFileVersion fs a (parseD a)).From = parseD a from rfl,
      hea, heb]
    exact hab
  · intro hl
    have h1 : ((simpleSearchRows fs words limit).length : Int) ≤ limit := by
      unfold simpleSearchRows
      exact length_sqlLimit hl
    rw [hmap, List.length_map]
    exact h1

/-- A store whose single row's info field "info a" contains the word
"info" as a leading token. -/
def infoStore : Filestore :=
  ⟨"store", false, true,
    ⟨[⟨1, "c"⟩],
     [⟨1, "p", "info a", "f", "xyz", "2020-01-01 00:00:00", 1⟩]⟩, []⟩

/-- Witness for C6 amended: the leading-token match is returned. -/
theorem spec_c6_simple_search_witness :
    ∃ vs, infoStore.SimpleSearch ["info"] 10 = .ok vs ∧
      ∃ v ∈ vs, v.ID = 1 :=
  ⟨[⟨1, "p", "p", "store/c/p", "info a", "f", "xyz",
      ⟨2020, 1, 1, 0, 0, 0⟩, "c"⟩], rfl,
   (spec_c6_simple_search infoStore ["info"] 10
       [⟨1, "p", "p", "store/c/p", "info a", "f", "xyz",
          ⟨2020, 1, 1, 0, 0, 0⟩, "c"⟩] rfl (by simp) rfl).2.1
     (by decide) ⟨1, "p", "info a", "f", "xyz", "2020-01-01 00:00:00", 1⟩
     (by decide) (by decide) "c" rfl⟩

/-- A single source file with bytes [1,2,3]. -/
def srcFS : FS := [("a.txt", ⟨[1, 2, 3], none⟩)]

/-- A fresh open store without compression. -/
def plainStore : Filestore := ⟨"store", false, true, ⟨[], []⟩, srcFS⟩

/-- The same store with the Compress option set. -/
def snappyStore : Filestore := ⟨"store", true, true, ⟨[], []⟩, srcFS⟩

/-- plainStore after one Add. -/
def plainStore1 : Filestore :=
  (plainStore.Add extId "a.txt" "i" "1.0" "2020-01-01 10:00:00").1

/-- snappyStore after one Add. -/
def snappyStore1 : Filestore :=
  (snappyStore.Add extId "a.txt" "i" "1.0" "2020-01-01 10:00:00").1

/-- The FileVersion produced by either Add (the resolved Local path
never carries the `.snappy` suffix). -/
def fvA : FileVersion :=
  ⟨1, "a.txt", "a.txt", "store/1-2-3/a.txt", "i", "i", "1.0",
    ⟨2020, 1, 1, 10, 0, 0⟩, "1-2-3"⟩

/-- C2: the uncompressed path round-trips (Restore reproduces the
added bytes), but with the store-wide compression option set, Add
writes the blob to `store/<digest>/a.txt.snappy` while Restore (via
`localPath`) reads `store/<digest>/a.txt` — a path that was never
written — so Restore fails with an I/O error instead of reproducing
the content: the restore path does NOT resolve the compression suffix,
contradicting both this claim and the evident intent of Restore
(which does pass the decompress flag to copyFile). -/
theorem spec_c2_roundtrip_compression_bug :
    (plainStore.Add extId "a.txt" "i" "1.0" "2020-01-01 10:00:00").2 =
      none ∧
    plainStore1.Get "a.txt" = .ok fvA ∧
    (plainStore1.Restore extId fvA "out").2 = none ∧
    fsLookup (plainStore1.Restore extId fvA "out").1.fsys "out/a.txt" =
      some ⟨[1, 2, 3], none⟩ ∧
    (snappyStore.Add extId "a.txt" "i" "1.0" "2020-01-01 10:00:00").2 =
      none ∧
    fsLookup snappyStore1.fsys "store/1-2-3/a.txt.snappy" =
      some ⟨[1, 2, 3], none⟩ ∧
    fsLookup snappyStore1.fsys "store/1-2-3/a.txt" = none ∧
    snappyStore1.Get "a.txt" = .ok fvA ∧
    (snappyStore1.Restore extId fvA "out").2 = some .ioErr ∧
    (snappyStore1.Restore extId fvA "out").1 = snappyStore1 :=
  ⟨rfl, by decide, rfl, rfl, rfl, rfl, rfl, by decide, rfl, rfl⟩

end FilestoreModel
